import Mathlib

/-!
Shallow embedding of `create_par2.py` (Python 2).

Conventions used throughout:
* Python ints are modelled as `ℕ`/`ℤ` (file sizes are non-negative; Python 2
  `/` on ints is floor division, modelled by `Nat.div`).
* `decimal.Decimal`/`fractions.Fraction` values (`last_bin_size_fraction`,
  `redundancy_fraction`) are modelled as exact rationals `ℚ` (the 28-digit
  context precision of `decimal` is abstracted to exact arithmetic; every
  `Decimal` the program builds from command-line input fits in it).  The
  binary64 round-trip that Python 2's `math.ceil` performs on a `Fraction`
  argument is NOT abstracted away: it is modelled explicitly by `py_float`
  below (round to nearest, ties to even, with underflow to zero and
  `OverflowError` past the largest finite double).
* Python `int(q)` applied to a non-negative quantity is `⌊q⌋` (truncation
  toward zero coincides with the floor there; every use below is on a
  provably non-negative value).
* A Python function that can raise returns `Option`/`Except`: `none` (or an
  explicit error value) marks the raise.  In particular `max(x)` applied to a
  single non-iterable argument raises `TypeError`, and `l[-1]` on an empty
  list raises `IndexError`; both are modelled explicitly below.
* File names (dict keys) are modelled as `ℕ`; a Python dict `{file: size}` is
  modelled as its key list `keys : List ℕ` together with the size map
  `sz : ℕ → ℕ`.
-/

namespace CreatePar2

open List

/- `Rat.add`, `Rat.mul`, `Rat.sub` and `Rat.inv` are `@[irreducible]` in the
library; unseal them so that concrete rational computations in the theorems
below reduce by `decide`. -/
unseal Rat.add Rat.mul Rat.sub Rat.inv

/-! ### Python's `sorted`

Python's `sorted` is a stable ascending sort.  It is modelled by a stable
insertion sort over a decidable total relation: an element is inserted in
front of the first element it relates to, so earlier elements of the original
list stay in front of later, equal ones, exactly as a stable sort does. -/

def insort {α : Type} (r : α → α → Prop) [DecidableRel r] (x : α) : List α → List α
  | [] => [x]
  | y :: ys => if r x y then x :: y :: ys else y :: insort r x ys

def py_sorted {α : Type} (r : α → α → Prop) [DecidableRel r] (l : List α) : List α :=
  l.foldr (insort r) []

/-- Python's lexicographic `<=` on the `(size, file)` tuples built by
`distribute_files_uniformly`. -/
def tupleLe (a b : ℕ × ℕ) : Prop :=
  a.1 < b.1 ∨ (a.1 = b.1 ∧ a.2 ≤ b.2)

instance : DecidableRel tupleLe := fun a b => by
  unfold tupleLe
  infer_instance

/-! ### `calculate_last_overshoot` (source lines 122–128) -/

/-- ```
def calculate_last_overshoot(file_size, max_bin_size, last_bin_size, last_bin_size_fraction):
    space_left_until_overshoot = max_bin_size * last_bin_size_fraction - last_bin_size
    overshoot = file_size - space_left_until_overshoot
    if overshoot < 0:
        return overshoot
    else:
        return int(overshoot / last_bin_size_fraction)
```
`overshoot` is a `Decimal` (modelled as `ℚ`); in the second branch it is
non-negative and `last_bin_size_fraction` is positive on every call (the
caller asserts `0 < last_bin_size_fraction <= 1`), so Python's `int`
truncation is the floor. -/
def calculate_last_overshoot (file_size : ℕ) (max_bin_size : ℤ)
    (last_bin_size : ℕ) (last_bin_size_fraction : ℚ) : ℚ :=
  let space_left_until_overshoot : ℚ :=
    (max_bin_size : ℚ) * last_bin_size_fraction - (last_bin_size : ℚ)
  let overshoot : ℚ := (file_size : ℚ) - space_left_until_overshoot
  if overshoot < 0 then overshoot
  else ((⌊overshoot / last_bin_size_fraction⌋ : ℤ) : ℚ)

/-! ### `index_of_smallest` (source lines 132–133) -/

/-- `a.index(min(a))`: the first index holding the minimum.  Python raises on
an empty list; every call site below passes a list of length `num_bins ≥ 1`,
and the `0` default is never reached there. -/
def index_of_smallest (a : List ℚ) : ℕ :=
  match a.min? with
  | none => 0
  | some m => a.findIdx (fun y => y == m)

/-! ### `distribute_files_uniformly` (source lines 136–158) -/

/-- Python's `max(first, *rest)`: with `rest` empty this is `max(first)`,
which raises `TypeError` because an `int` is not iterable (this happens in
`distribute_files_uniformly` exactly when `num_bins == 1`). -/
def pymax_varargs (first : ℤ) (rest : List ℤ) : Option ℤ :=
  match rest with
  | [] => none
  | r :: rs => some ((r :: rs).foldl max first)

/-- The running state of the packing loop.  The source keeps, for each bin,
the list of files placed in it; here each bin keeps the whole `(size, file)`
pair (the loop variable of `for size, file in reversed(sizes_to_files)`), and
`distribute_files_uniformly` projects the file component out at the end.
`binSizes` is the source's `bin_sizes` list. -/
structure PackState where
  bins : List (List (ℕ × ℕ))
  binSizes : List ℕ

/-- One iteration of the `for size, file in reversed(sizes_to_files)` loop:
```
adjusted_last_bin_size = int(bin_sizes[-1] / last_bin_size_fraction)
max_bin_size = max(adjusted_last_bin_size, *bin_sizes[:-1])
overshoot_if_put_in_bin = [size - (max_bin_size - bin_size) for bin_size in bin_sizes[:-1]]
overshoot_if_put_in_bin.append(
        calculate_last_overshoot(size, max_bin_size, bin_sizes[-1], last_bin_size_fraction))
target_index = index_of_smallest(overshoot_if_put_in_bin)
bins[target_index].append(file)
bin_sizes[target_index] += size
```
`bin_sizes[-1]` raises `IndexError` when there are no bins, and the `max`
call raises `TypeError` when there is exactly one bin. -/
def packStep (f : ℚ) (st : PackState) (p : ℕ × ℕ) : Option PackState :=
  match st.binSizes.getLast? with
  | none => none
  | some lastBin =>
    let adjusted_last_bin_size : ℤ := ⌊(lastBin : ℚ) / f⌋
    let front := st.binSizes.dropLast
    match pymax_varargs adjusted_last_bin_size (front.map (fun (b : ℕ) => (b : ℤ))) with
    | none => none
    | some max_bin_size =>
      let overshoots : List ℚ :=
        front.map (fun (b : ℕ) => (p.1 : ℚ) - ((max_bin_size : ℚ) - (b : ℚ)))
          ++ [calculate_last_overshoot p.1 max_bin_size lastBin f]
      let t := index_of_smallest overshoots
      some ⟨st.bins.set t (st.bins.getD t [] ++ [p]),
            st.binSizes.set t (st.binSizes.getD t 0 + p.1)⟩

/-- ```
def distribute_files_uniformly(files_with_sizes, num_bins, last_bin_size_fraction=1):
    assert 0 < last_bin_size_fraction <= 1
    sizes_to_files = sorted([(size, file) for file, size in files_with_sizes.items()])
    bins = [[] for i in range(num_bins)]
    bin_sizes = [0] * num_bins
    for size, file in reversed(sizes_to_files):
        ...
    return bins, bin_sizes
```
The dict `files_with_sizes` is given as its key list plus size map; `none`
models a raised exception (`AssertionError`, `IndexError` or `TypeError`). -/
def distribute_files_uniformly (keys : List ℕ) (sz : ℕ → ℕ) (num_bins : ℕ)
    (last_bin_size_fraction : ℚ) : Option (List (List ℕ) × List ℕ) :=
  if 0 < last_bin_size_fraction ∧ last_bin_size_fraction ≤ 1 then
    let sizes_to_files := py_sorted tupleLe (keys.map (fun file => (sz file, file)))
    (sizes_to_files.reverse.foldlM (packStep last_bin_size_fraction)
        ⟨List.replicate num_bins [], List.replicate num_bins 0⟩).map
      (fun st => (st.bins.map (fun b => b.map Prod.snd), st.binSizes))
  else
    none

/-! ### Plain uniform greedy balancing (spec-side model for refinement claim C2)

Modelled from the spec: "with `last_bin_fraction = 1`, packing degenerates to
plain uniform greedy balancing (no special-case divergence from regular
bins)" — the balancer in which every bin, the last one included, uses the
regular overshoot formula `item_size - (max_bin_size - bin_size)` against the
plain high-water mark `max(bin_sizes)`. -/

def plainStep (st : PackState) (p : ℕ × ℕ) : PackState :=
  let max_bin_size : ℕ := st.binSizes.foldr max 0
  let overshoots : List ℚ :=
    st.binSizes.map (fun (b : ℕ) => (p.1 : ℚ) - ((max_bin_size : ℚ) - (b : ℚ)))
  let t := index_of_smallest overshoots
  ⟨st.bins.set t (st.bins.getD t [] ++ [p]),
   st.binSizes.set t (st.binSizes.getD t 0 + p.1)⟩

def plain_uniform_greedy (keys : List ℕ) (sz : ℕ → ℕ) (num_bins : ℕ) :
    List (List ℕ) × List ℕ :=
  let sizes_to_files := py_sorted tupleLe (keys.map (fun file => (sz file, file)))
  let st := sizes_to_files.reverse.foldl plainStep
    ⟨List.replicate num_bins [], List.replicate num_bins 0⟩
  (st.bins.map (fun b => b.map Prod.snd), st.binSizes)

/-! ### `get_suitable_block_size` (source lines 282–308) -/

/-- `1024*1024`, the 1 MiB threshold of the block-size heuristic. -/
def MB : ℕ := 1024 * 1024

/-- How a run of `get_suitable_block_size` can fail to return a value:
`indexError` is `sizes[0]` on an empty list, `zeroDiv` is a
`ZeroDivisionError`, and `outOfFuel` marks that the `while` loop did not
exit within the given number of iterations (the loop diverges exactly when
no amount of fuel suffices). -/
inductive PyErr : Type
  | indexError : PyErr
  | zeroDiv : PyErr
  | outOfFuel : PyErr
deriving DecidableEq, Repr

deriving instance DecidableEq for Except

/-- The block-size choice made before the doubling loop (source lines
285–298).  `sizes`/`total_size`/`n` are the sorted size list, its sum and its
length; the caller passes the pieces of the already-sorted list.
```
greatest_common_divider = sizes[0]          # IndexError on an empty dict
x = sizes[len(sizes)/4]
if x == sizes[-1] and total_size / x + len(sizes) < 20000:
    if x > 1024*1024:
        approximate_size_in_MB = x / (1024*1024)
        block_size = (x + approximate_size_in_MB - 1) // approximate_size_in_MB
    else:
        block_size = x
else:
    block_size = max(sizes[len(sizes)/5] / 4, 4096)
```
`and` short-circuits, so `total_size / x` (and with it a possible
`ZeroDivisionError`) is evaluated only when `x == sizes[-1]`; the division by
`approximate_size_in_MB` is likewise guarded explicitly. -/
def pre_loop_block_size (file_sizes : List ℕ) : Except PyErr ℕ :=
  let sizes := py_sorted (· ≤ ·) file_sizes
  match sizes with
  | [] => .error .indexError
  | _ :: _ =>
    let total_size := sizes.sum
    let n := sizes.length
    let x := sizes.getD (n / 4) 0
    let lastSize := sizes.getLast?.getD 0
    -- `x == sizes[-1] and total_size / x + len(sizes) < 20000`: the
    -- short-circuit `and` is the nested conditional below, with the `else`
    -- branch of the source's `if` appearing once per way the test can fail.
    if x = lastSize then
      if x = 0 then .error .zeroDiv
      else if total_size / x + n < 20000 then
        if MB < x then
          let approximate_size_in_MB := x / MB
          if approximate_size_in_MB = 0 then .error .zeroDiv
          else .ok ((x + approximate_size_in_MB - 1) / approximate_size_in_MB)
        else .ok x
      else .ok (max (sizes.getD (n / 5) 0 / 4) 4096)
    else .ok (max (sizes.getD (n / 5) 0 / 4) 4096)

/-- The doubling loop (source lines 300–302):
```
while total_size / block_size + len(sizes) > 20000:
    block_size = min(block_size * 2, sizes[-1])
```
`fuel` bounds the number of iterations; the loop itself never changes
`total_size`, `n` or `max_size = sizes[-1]`.  The guard's division raises
`ZeroDivisionError` when `block_size` is `0`. -/
def block_loop (total_size n max_size : ℕ) : ℕ → ℕ → Except PyErr ℕ
  | 0, _ => .error .outOfFuel
  | fuel + 1, block_size =>
    if block_size = 0 then .error .zeroDiv
    else if total_size / block_size + n > 20000 then
      block_loop total_size n max_size fuel (min (block_size * 2) max_size)
    else .ok block_size

/-- ```
def get_suitable_block_size(file_sizes):
    sizes = list(sorted(file_sizes.values()))
    ...                       # pre_loop_block_size
    while ...                 # block_loop
    if block_size % 4 != 0:
        block_size += 4 - (block_size % 4)
    return block_size
```
Only the multiset of sizes matters, so the argument is the size list.  The
function returns `.ok` the Python return value; it diverges on an input
exactly when the result is `.error .outOfFuel` for every `fuel`. -/
def get_suitable_block_size (fuel : ℕ) (file_sizes : List ℕ) : Except PyErr ℕ :=
  let sizes := py_sorted (· ≤ ·) file_sizes
  match pre_loop_block_size file_sizes with
  | .error e => .error e
  | .ok bs0 =>
    match block_loop sizes.sum sizes.length (sizes.getLast?.getD 0) fuel bs0 with
    | .error e => .error e
    | .ok block_size =>
      .ok (if block_size % 4 ≠ 0 then block_size + (4 - block_size % 4) else block_size)

/-- `get_suitable_block_size` terminates (returns a value or raises, rather
than looping forever) on the given size list. -/
def gsbs_terminates (file_sizes : List ℕ) : Prop :=
  ∃ fuel, get_suitable_block_size fuel file_sizes ≠ .error .outOfFuel

/-! ### `get_num_recovery_blocks` (source lines 319–323)

The argument `redundancy_fraction` is a `fractions.Fraction` (built in `main`
as `fractions.Fraction(redundancy) / args.num_volumes`, source line 520), so
the quotient `num_data_blocks * redundancy_fraction / (1 - redundancy_fraction)`
is computed exactly.  But `math.ceil` is a C double function: it first
converts the `Fraction` through `float`.  `Fraction.__float__` is
`self._numerator / self._denominator` under `from __future__ import division`,
i.e. int true division, which CPython rounds correctly to an IEEE-754 binary64
double (round to nearest, ties to even; 53-bit significand, minimum normal
exponent `-1022`, subnormal quantum `2 ^ (-1074)`) and which raises
`OverflowError` when the quotient rounds past the largest finite double.  The
conversion is modelled below by `py_float`; `math.ceil` on the resulting
double and `int(...)` on its integral result are both exact. -/

/-- Round a rational to the nearest integer, ties to even (the IEEE-754
default rounding direction). -/
def round_half_even (q : ℚ) : ℤ :=
  if q - (⌊q⌋ : ℚ) < 1 / 2 then ⌊q⌋
  else if (1 : ℚ) / 2 < q - (⌊q⌋ : ℚ) then ⌊q⌋ + 1
  else if 2 ∣ ⌊q⌋ then ⌊q⌋ else ⌊q⌋ + 1

/-- The exponent of the rounding quantum (unit in the last place) of the
binary64 double nearest to the positive rational `q`: `⌊log₂ q⌋ - 52` in the
normal range (53-bit significand), floored at `-1074` in the subnormal
range. -/
def float_scale (q : ℚ) : ℤ :=
  max (Int.log 2 q - 52) (-1074)

/-- The significand of the binary64 double nearest to the positive rational
`q`, scaled to its rounding quantum. -/
def float_mantissa (q : ℚ) : ℤ :=
  round_half_even (q / (2 : ℚ) ^ float_scale q)

/-- The exact value of the IEEE-754 binary64 double nearest to the positive
rational `q` (round to nearest, ties to even), or `none` when `q` rounds past
the largest finite double `(2 ^ 53 - 1) * 2 ^ 971` — i.e. exactly when
`(2 ^ 53 - 1 / 2) * 2 ^ 971 = 2 ^ 1024 - 2 ^ 970 ≤ q`, which makes the
rounded value reach `2 ^ 1024`.  Tiny `q` underflow: every positive
`q ≤ 2 ^ (-1075)` rounds to `some 0`, the IEEE underflow of `float`. -/
def float_of_pos_rat (q : ℚ) : Option ℚ :=
  if (2 : ℚ) ^ (1024 : ℕ) ≤ (float_mantissa q : ℚ) * (2 : ℚ) ^ float_scale q then none
  else some ((float_mantissa q : ℚ) * (2 : ℚ) ^ float_scale q)

/-- `float(q)` applied to a `fractions.Fraction` `q`: the correctly rounded
binary64 value of the exact rational, with `none` for the `OverflowError`
raised when the quotient rounds past the largest finite double. -/
def py_float (q : ℚ) : Option ℚ :=
  if q = 0 then some 0
  else if 0 < q then float_of_pos_rat q
  else (float_of_pos_rat (-q)).map (fun v => -v)

/-- ```
def get_num_recovery_blocks(num_data_blocks, redundancy_fraction):
    return int(math.ceil(num_data_blocks * redundancy_fraction / (1 - redundancy_fraction)))
```
The quotient is exact `Fraction` arithmetic; Python 2's `math.ceil` converts
it through `float` (`py_float` above, `none` = `OverflowError`), then the
ceiling of the double and the `int` conversion of the integral result are
exact: `⌈·⌉` on the rational value of the double. -/
def get_num_recovery_blocks (num_data_blocks : ℕ) (redundancy_fraction : ℚ) :
    Option ℤ :=
  (py_float ((num_data_blocks : ℚ) * redundancy_fraction
    / (1 - redundancy_fraction))).map (fun v => ⌈v⌉)

/-! ### The unevenness gate of `main` (source lines 456–471) -/

/-- What the unevenness check of `main` does once the packing is known:
abort with the printed feasibility explanation and `SystemExit(1)`, abort
with an uncaught `AttributeError` (the interpreter also exits with status 1,
but prints a traceback instead of the explanation), or fall through and let
the run continue to the external tools. -/
inductive MainOutcome : Type
  | feasibility_error : String → MainOutcome
  | attribute_error : String → MainOutcome
  | continue_run : MainOutcome
deriving DecidableEq, Repr

/-- The explanation `main` tries to print when the packing is too uneven. -/
def unevenness_message (compression : Bool) : String :=
  "The sizes of the input files " ++ (if compression then "(before compression) " else "")
    ++ "is uneven and it will probably not be possible to restore the files if one of "
    ++ "the volumes fail. To continue anyway you need to use the option --force."

/-- An `argparse` namespace stores each parsed flag under its destination
name; reading any other attribute raises `AttributeError`. -/
def namespace_lookup (attrs : List (String × Bool)) (name : String) : Option Bool :=
  (attrs.find? (fun kv => kv.1 == name)).map (fun kv => kv.2)

/-- The four `store_true` flags `main` declares, under their `argparse`
destination names (`--compress`, `--encrypt`, `--force`, `--no-verify`). -/
def parsed_bool_attrs (compress encrypt force no_verify : Bool) : List (String × Bool) :=
  [("compress", compress), ("encrypt", encrypt), ("force", force), ("no_verify", no_verify)]

/-- ```
adjusted_bin_sizes = bin_sizes[:-1] + [int(bin_sizes[-1] / last_bin_size_fraction)]
average_volume_size = float(sum(adjusted_bin_sizes)) / len(adjusted_bin_sizes)
unevenness = max(adjusted_bin_sizes) / average_volume_size
if unevenness > args.num_volumes - 0.05 and not args.force:
    print_wrap(
            "The sizes of the input files %s" % ("(before compression) " if args.compression else "") +
            "is uneven and ...")
    raise SystemExit(1)
```
`bin_sizes` is the packing result (`main` always packs into at least one
bin, so `bin_sizes[-1]` is defined).  Float arithmetic is abstracted to `ℚ`
(`0.05` becomes `1/20`).  The message interpolation reads `args.compression`,
an attribute the parser never sets — its destination name is `compress` — so
reaching the message raises `AttributeError`. -/
def unevenness_gate (bin_sizes : List ℕ) (last_bin_size_fraction : ℚ)
    (num_volumes : ℕ) (force : Bool) (attrs : List (String × Bool)) : MainOutcome :=
  let adjusted_bin_sizes : List ℤ :=
    bin_sizes.dropLast.map (fun b => (b : ℤ))
      ++ [⌊((bin_sizes.getLast?.getD 0 : ℕ) : ℚ) / last_bin_size_fraction⌋]
  let average_volume_size : ℚ :=
    (adjusted_bin_sizes.map (fun b => (b : ℚ))).sum / (adjusted_bin_sizes.length : ℚ)
  let unevenness : ℚ := ((adjusted_bin_sizes.max?.getD 0 : ℤ) : ℚ) / average_volume_size
  if unevenness > (num_volumes : ℚ) - 1 / 20 ∧ force = false then
    match namespace_lookup attrs "compression" with
    | none => .attribute_error "compression"
    | some compression => .feasibility_error (unevenness_message compression)
  else .continue_run

/-- The total size of the `(size, file)` pairs stored in one bin (used by the
packing-loop invariant below). -/
def binTotal (ps : List (ℕ × ℕ)) : ℕ := (ps.map Prod.fst).sum

/-! ### Helper lemmas: `py_sorted` -/

theorem insort_perm {α : Type} (r : α → α → Prop) [DecidableRel r] (x : α) :
    ∀ l : List α, (insort r x l).Perm (x :: l)
  | [] => List.Perm.refl _
  | y :: ys => by
    by_cases h : r x y
    · simp [insort, h]
    · simpa [insort, h] using ((insort_perm r x ys).cons y).trans (List.Perm.swap x y ys)

theorem py_sorted_perm {α : Type} (r : α → α → Prop) [DecidableRel r] :
    ∀ l : List α, (py_sorted r l).Perm l
  | [] => List.Perm.refl _
  | x :: xs =>
    (insort_perm r x (py_sorted r xs)).trans ((py_sorted_perm r xs).cons x)

theorem mem_insort {α : Type} {r : α → α → Prop} [DecidableRel r] {x a : α} {l : List α} :
    a ∈ insort r x l ↔ a = x ∨ a ∈ l := by
  have := (insort_perm r x l).mem_iff (a := a)
  simpa using this

theorem sorted_insort (x : ℕ) :
    ∀ {l : List ℕ}, List.Sorted (· ≤ ·) l → List.Sorted (· ≤ ·) (insort (· ≤ ·) x l)
  | [], _ => List.sorted_singleton x
  | y :: ys, h => by
    rcases List.sorted_cons.mp h with ⟨hy, hys⟩
    unfold insort
    by_cases hxy : x ≤ y
    · rw [if_pos hxy]
      refine List.sorted_cons.mpr ⟨?_, h⟩
      intro b hb
      rcases List.mem_cons.mp hb with rfl | hb
      · exact hxy
      · exact le_trans hxy (hy b hb)
    · rw [if_neg hxy]
      refine List.sorted_cons.mpr ⟨?_, sorted_insort x hys⟩
      intro b hb
      rcases mem_insort.mp hb with rfl | hb
      · exact le_of_not_le hxy
      · exact hy b hb

theorem py_sorted_sorted : ∀ l : List ℕ, List.Sorted (· ≤ ·) (py_sorted (· ≤ ·) l)
  | [] => List.sorted_nil
  | x :: xs => sorted_insort x (py_sorted_sorted xs)

theorem sorted_le_getLast :
    ∀ {l : List ℕ}, List.Sorted (· ≤ ·) l → ∀ a ∈ l, a ≤ l.getLast?.getD 0
  | [], _, a, ha => absurd ha (List.not_mem_nil a)
  | [x], _, a, ha => by
    rcases List.mem_singleton.mp ha with rfl
    simp [List.getLast?]
  | x :: y :: t, h, a, ha => by
    rcases List.sorted_cons.mp h with ⟨hx, ht⟩
    rw [List.getLast?_cons_cons]
    rcases List.mem_cons.mp ha with rfl | ha
    · have hmem : (y :: t).getLast?.getD 0 ∈ y :: t := by
        rw [List.getLast?_eq_getLast_of_ne_nil (List.cons_ne_nil y t)]
        exact List.getLast_mem _
      exact le_trans (hx _ hmem) (le_refl _)
    · exact sorted_le_getLast ht a ha

/-- Every member of the sorted size list is at most its last entry. -/
theorem py_sorted_le_getLast (l : List ℕ) (a : ℕ) (ha : a ∈ l) :
    a ≤ (py_sorted (· ≤ ·) l).getLast?.getD 0 :=
  sorted_le_getLast (py_sorted_sorted l) a (((py_sorted_perm (· ≤ ·) l).mem_iff).mpr ha)

theorem py_sorted_getLast_mem {l : List ℕ} (hl : l ≠ []) :
    (py_sorted (· ≤ ·) l).getLast?.getD 0 ∈ l := by
  have hne : py_sorted (· ≤ ·) l ≠ [] := by
    intro h
    have hlen := (py_sorted_perm (· ≤ ·) l).length_eq
    rw [h] at hlen
    exact hl (List.eq_nil_of_length_eq_zero hlen.symm)
  have hmem : (py_sorted (· ≤ ·) l).getLast?.getD 0 ∈ py_sorted (· ≤ ·) l := by
    rw [List.getLast?_eq_getLast_of_ne_nil hne]
    exact List.getLast_mem _
  exact ((py_sorted_perm (· ≤ ·) l).mem_iff).mp hmem

/-! ### Helper lemmas: `index_of_smallest` -/

theorem index_of_smallest_lt_length {a : List ℚ} (ha : a ≠ []) :
    index_of_smallest a < a.length := by
  rcases a with _ | ⟨x, xs⟩
  · exact absurd rfl ha
  · have hsome : (x :: xs).min?.isSome := List.isSome_min?_of_mem (List.mem_cons_self x xs)
    rcases Option.isSome_iff_exists.mp hsome with ⟨m, hm⟩
    have hmem : m ∈ x :: xs := List.min?_mem (fun a b => min_choice a b) hm
    rw [index_of_smallest, hm]
    exact List.findIdx_lt_length_of_exists ⟨m, hmem, by simp⟩

/-! ### The packing loop invariant -/

theorem flatten_set_append {α : Type} :
    ∀ (L : List (List α)) (t : ℕ), t < L.length → ∀ p : α,
      (L.set t (L.getD t [] ++ [p])).flatten.Perm (L.flatten ++ [p])
  | [], t, ht, p => absurd ht (by simp)
  | b :: bs, 0, _, p => by
    simp only [List.set_cons_zero, List.getD_cons_zero, List.flatten_cons]
    calc (b ++ [p]) ++ bs.flatten
        = b ++ ([p] ++ bs.flatten) := by rw [List.append_assoc]
      _ ~ b ++ (bs.flatten ++ [p]) := List.Perm.append_left b (List.perm_append_comm)
      _ = (b ++ bs.flatten) ++ [p] := by rw [List.append_assoc]
  | b :: bs, t + 1, ht, p => by
    simp only [List.set_cons_succ, List.getD_cons_succ, List.flatten_cons]
    have ih := flatten_set_append bs t (by simpa using ht) p
    calc b ++ (bs.set t (bs.getD t [] ++ [p])).flatten
        ~ b ++ (bs.flatten ++ [p]) := List.Perm.append_left b ih
      _ = (b ++ bs.flatten) ++ [p] := by rw [List.append_assoc]

theorem packStep_spec (f : ℚ) (n : ℕ) (hn : 2 ≤ n) (st : PackState) (p : ℕ × ℕ)
    (hL : st.bins.length = n) (hS : st.binSizes = st.bins.map binTotal) :
    ∃ st', packStep f st p = some st' ∧ st'.bins.length = n ∧
      st'.binSizes = st'.bins.map binTotal ∧
      st'.bins.flatten.Perm (st.bins.flatten ++ [p]) := by
  have hBS : st.binSizes.length = n := by rw [hS, List.length_map, hL]
  have hne : st.binSizes ≠ [] :=
    List.ne_nil_of_length_pos (by rw [hBS]; omega)
  have hlast : st.binSizes.getLast? = some (st.binSizes.getLast hne) :=
    List.getLast?_eq_getLast_of_ne_nil hne
  have hfrontlen : st.binSizes.dropLast.length = n - 1 := by
    rw [List.length_dropLast, hBS]
  have hfrontne : st.binSizes.dropLast ≠ [] :=
    List.ne_nil_of_length_pos (by rw [hfrontlen]; omega)
  obtain ⟨r, rs, hrr⟩ := List.exists_cons_of_ne_nil hfrontne
  have hpym : pymax_varargs ⌊((st.binSizes.getLast hne : ℕ) : ℚ) / f⌋
      (st.binSizes.dropLast.map (fun (b : ℕ) => (b : ℤ)))
      = some (((r : ℤ) :: rs.map (fun (b : ℕ) => (b : ℤ))).foldl max
          ⌊((st.binSizes.getLast hne : ℕ) : ℚ) / f⌋) := by
    rw [hrr, List.map_cons, pymax_varargs]
  set m : ℤ := (((r : ℤ) :: rs.map (fun (b : ℕ) => (b : ℤ))).foldl max
    ⌊((st.binSizes.getLast hne : ℕ) : ℚ) / f⌋) with hm
  have hoslen :
      (st.binSizes.dropLast.map (fun (b : ℕ) => (p.1 : ℚ) - ((m : ℚ) - (b : ℚ)))
        ++ [calculate_last_overshoot p.1 m (st.binSizes.getLast hne) f]).length = n := by
    rw [List.length_append, List.length_map, hfrontlen]
    simp only [List.length_singleton]
    omega
  have hosne : (st.binSizes.dropLast.map (fun (b : ℕ) => (p.1 : ℚ) - ((m : ℚ) - (b : ℚ)))
      ++ [calculate_last_overshoot p.1 m (st.binSizes.getLast hne) f]) ≠ [] :=
    List.ne_nil_of_length_pos (by rw [hoslen]; omega)
  set t := index_of_smallest
    (st.binSizes.dropLast.map (fun (b : ℕ) => (p.1 : ℚ) - ((m : ℚ) - (b : ℚ)))
      ++ [calculate_last_overshoot p.1 m (st.binSizes.getLast hne) f]) with hti
  have htn : t < n := by
    have := index_of_smallest_lt_length hosne
    rw [hoslen] at this
    exact this
  have htb : t < st.bins.length := by rw [hL]; exact htn
  have hstep : packStep f st p = some
      ⟨st.bins.set t (st.bins.getD t [] ++ [p]),
       st.binSizes.set t (st.binSizes.getD t 0 + p.1)⟩ := by
    rw [packStep, hlast]
    simp only [hpym]
  refine ⟨_, hstep, ?_, ?_, ?_⟩
  · simpa using hL
  · show st.binSizes.set t (st.binSizes.getD t 0 + p.1)
        = (st.bins.set t (st.bins.getD t [] ++ [p])).map binTotal
    rw [List.map_set, ← hS]
    have h1 : st.binSizes.getD t 0 = binTotal (st.bins.getD t []) := by
      rw [hS, List.getD_eq_getElem _ _ (by simpa [hL] using htn),
        List.getD_eq_getElem _ _ htb, List.getElem_map]
    have h2 : binTotal (st.bins.getD t [] ++ [p]) = binTotal (st.bins.getD t []) + p.1 := by
      simp [binTotal]
    rw [h1, h2]
  · exact flatten_set_append st.bins t htb p

theorem packFold_spec (f : ℚ) (n : ℕ) (hn : 2 ≤ n) :
    ∀ (l : List (ℕ × ℕ)) (st : PackState),
      st.bins.length = n → st.binSizes = st.bins.map binTotal →
      ∃ st', l.foldlM (packStep f) st = some st' ∧ st'.bins.length = n ∧
        st'.binSizes = st'.bins.map binTotal ∧
        st'.bins.flatten.Perm (st.bins.flatten ++ l)
  | [], st, hL, hS => ⟨st, by simp, hL, hS, by simp⟩
  | p :: ps, st, hL, hS => by
    obtain ⟨st₁, hstep, hL₁, hS₁, hperm₁⟩ := packStep_spec f n hn st p hL hS
    obtain ⟨st', hfold, hL', hS', hperm'⟩ := packFold_spec f n hn ps st₁ hL₁ hS₁
    refine ⟨st', ?_, hL', hS', ?_⟩
    · rw [List.foldlM_cons, hstep]
      simpa using hfold
    · calc st'.bins.flatten
          ~ st₁.bins.flatten ++ ps := hperm'
        _ ~ (st.bins.flatten ++ [p]) ++ ps := hperm₁.append_right ps
        _ = st.bins.flatten ++ (p :: ps) := by
            rw [List.append_assoc, List.singleton_append]

/-- The master lemma behind C1 and C8: with at least two bins the packing
always succeeds, returns `num_bins` bins and `num_bins` sizes, distributes
the keys into the bins as a partition, and the bin sizes are the per-bin size
sums. -/
theorem distribute_spec (keys : List ℕ) (sz : ℕ → ℕ) (n : ℕ) (f : ℚ)
    (hn : 2 ≤ n) (hf0 : 0 < f) (hf1 : f ≤ 1) :
    ∃ bins sizes, distribute_files_uniformly keys sz n f = some (bins, sizes) ∧
      bins.length = n ∧ sizes.length = n ∧
      bins.flatten.Perm keys ∧
      sizes.sum = (keys.map sz).sum ∧
      ∀ i, i < n → sizes.getD i 0 = ((bins.getD i []).map sz).sum := by
  have hsrp : ((py_sorted tupleLe (keys.map (fun file => (sz file, file)))).reverse).Perm
      (keys.map (fun file => (sz file, file))) :=
    (List.reverse_perm _).trans (py_sorted_perm tupleLe _)
  have hfs : ∀ p ∈ (py_sorted tupleLe (keys.map (fun file => (sz file, file)))).reverse,
      p.1 = sz p.2 := by
    intro p hp
    obtain ⟨k, _, rfl⟩ := List.mem_map.mp (hsrp.mem_iff.mp hp)
    rfl
  obtain ⟨st', hfold, hL', hS', hperm'⟩ :=
    packFold_spec f n hn ((py_sorted tupleLe (keys.map (fun file => (sz file, file)))).reverse)
      ⟨List.replicate n [], List.replicate n 0⟩ (by simp)
      (by rw [List.map_replicate]; rfl)
  have hflat : st'.bins.flatten.Perm
      ((py_sorted tupleLe (keys.map (fun file => (sz file, file)))).reverse) := by
    simpa using hperm'
  have hres : distribute_files_uniformly keys sz n f
      = some (st'.bins.map (fun b => b.map Prod.snd), st'.binSizes) := by
    rw [distribute_files_uniformly, if_pos ⟨hf0, hf1⟩]
    simp only [hfold, Option.map_some']
  refine ⟨_, _, hres, by simpa using hL', ?_, ?_, ?_, ?_⟩
  · rw [hS', List.length_map, hL']
  · have h1 : (st'.bins.map (fun b => b.map Prod.snd)).flatten
        = st'.bins.flatten.map Prod.snd := (List.map_flatten _ _).symm
    rw [h1]
    have h2 : (st'.bins.flatten.map Prod.snd).Perm
        ((keys.map (fun file => (sz file, file))).map Prod.snd) :=
      (hflat.trans hsrp).map _
    have h3 : (keys.map (fun file => (sz file, file))).map Prod.snd = keys := by
      rw [List.map_map]
      exact List.map_id keys
    rwa [h3] at h2
  · rw [hS']
    have h1 : (st'.bins.map binTotal).sum = (st'.bins.flatten.map Prod.fst).sum := by
      rw [List.map_flatten, List.sum_flatten, List.map_map]
      rfl
    rw [h1]
    have h2 : (st'.bins.flatten.map Prod.fst).Perm
        ((keys.map (fun file => (sz file, file))).map Prod.fst) :=
      (hflat.trans hsrp).map _
    have h3 : (keys.map (fun file => (sz file, file))).map Prod.fst = keys.map sz := by
      rw [List.map_map]
      rfl
    rw [h2.sum_eq, h3]
  · intro i hi
    have hib : i < st'.bins.length := by rw [hL']; exact hi
    have h1 : st'.binSizes.getD i 0 = binTotal (st'.bins.getD i []) := by
      rw [hS', List.getD_eq_getElem _ _ (by simpa [hL'] using hi),
        List.getD_eq_getElem _ _ hib, List.getElem_map]
    have h2 : (st'.bins.map (fun b => b.map Prod.snd)).getD i []
        = (st'.bins.getD i []).map Prod.snd := by
      rw [List.getD_eq_getElem _ _ (by simpa [hL'] using hi),
        List.getD_eq_getElem _ _ hib, List.getElem_map]
    rw [h1, h2, List.map_map]
    unfold binTotal
    refine congrArg List.sum (List.map_congr_left ?_).symm
    intro p hp
    have hmem : p ∈ st'.bins.flatten := by
      rw [List.mem_flatten]
      refine ⟨st'.bins.getD i [], ?_, hp⟩
      rw [List.getD_eq_getElem _ _ hib]
      exact List.getElem_mem hib
    have := hfs p (hflat.mem_iff.mp hmem)
    simpa using this.symm

/-! ### Fraction `1`: the last-bin special case degenerates -/

theorem foldl_max_natCast : ∀ (l : List ℕ) (a : ℕ),
    List.foldl max (a : ℤ) (l.map (fun (b : ℕ) => (b : ℤ))) = ((List.foldl max a l : ℕ) : ℤ)
  | [], a => rfl
  | x :: xs, a => by
    rw [List.map_cons, List.foldl_cons, List.foldl_cons, ← Nat.cast_max]
    exact foldl_max_natCast xs (max a x)

theorem foldl_max_eq_max_foldr : ∀ (l : List ℕ) (a : ℕ),
    List.foldl max a l = max a (List.foldr max 0 l)
  | [], a => by simp
  | x :: xs, a => by
    rw [List.foldl_cons, foldl_max_eq_max_foldr xs (max a x), List.foldr_cons]
    omega

theorem foldr_max_eq_max_foldr : ∀ (l : List ℕ) (a : ℕ),
    List.foldr max a l = max a (List.foldr max 0 l)
  | [], a => by simp
  | x :: xs, a => by
    rw [List.foldr_cons, foldr_max_eq_max_foldr xs a, List.foldr_cons]
    omega

theorem calculate_last_overshoot_one (s : ℕ) (M L : ℕ) :
    calculate_last_overshoot s ((M : ℕ) : ℤ) L 1
      = (s : ℚ) - ((M : ℚ) - (L : ℚ)) := by
  rw [calculate_last_overshoot]
  simp only [Int.cast_natCast, mul_one, div_one]
  split
  · rfl
  · rw [show (s : ℚ) - ((M : ℚ) - (L : ℚ))
        = (((s : ℤ) - ((M : ℤ) - (L : ℤ)) : ℤ) : ℚ) by push_cast; ring]
    rw [Int.floor_intCast]

theorem packStep_one_eq_plainStep (st : PackState) (p : ℕ × ℕ)
    (hlen : 2 ≤ st.binSizes.length) :
    packStep 1 st p = some (plainStep st p) := by
  have hne : st.binSizes ≠ [] := List.ne_nil_of_length_pos (by omega)
  have hlast : st.binSizes.getLast? = some (st.binSizes.getLast hne) :=
    List.getLast?_eq_getLast_of_ne_nil hne
  have hfrontne : st.binSizes.dropLast ≠ [] :=
    List.ne_nil_of_length_pos (by rw [List.length_dropLast]; omega)
  obtain ⟨r, rs, hrr⟩ := List.exists_cons_of_ne_nil hfrontne
  have hadj : (⌊((st.binSizes.getLast hne : ℕ) : ℚ) / 1⌋ : ℤ)
      = ((st.binSizes.getLast hne : ℕ) : ℤ) := by
    rw [div_one, Int.floor_natCast]
  have hsplit : st.binSizes = st.binSizes.dropLast ++ [st.binSizes.getLast hne] :=
    (List.dropLast_append_getLast hne).symm
  have hM : List.foldl max ((st.binSizes.getLast hne : ℕ) : ℤ)
        (st.binSizes.dropLast.map (fun (b : ℕ) => (b : ℤ)))
      = ((st.binSizes.foldr max 0 : ℕ) : ℤ) := by
    rw [foldl_max_natCast]
    congr 1
    rw [foldl_max_eq_max_foldr]
    conv_rhs => rw [hsplit]
    rw [List.foldr_append, List.foldr_cons, List.foldr_nil, Nat.max_zero,
      foldr_max_eq_max_foldr st.binSizes.dropLast (st.binSizes.getLast hne)]
  have hpym : pymax_varargs ⌊((st.binSizes.getLast hne : ℕ) : ℚ) / 1⌋
      (st.binSizes.dropLast.map (fun (b : ℕ) => (b : ℤ)))
      = some ((st.binSizes.foldr max 0 : ℕ) : ℤ) := by
    rw [hrr, List.map_cons, pymax_varargs]
    rw [← List.map_cons, ← hrr]
    rw [hadj]
    rw [hM]
  have hos : st.binSizes.dropLast.map
        (fun (b : ℕ) => (p.1 : ℚ) - ((((st.binSizes.foldr max 0 : ℕ) : ℤ) : ℚ) - (b : ℚ)))
        ++ [calculate_last_overshoot p.1 ((st.binSizes.foldr max 0 : ℕ) : ℤ)
              (st.binSizes.getLast hne) 1]
      = st.binSizes.map
          (fun (b : ℕ) => (p.1 : ℚ) - (((st.binSizes.foldr max 0 : ℕ) : ℚ) - (b : ℚ))) := by
    simp only [Int.cast_natCast]
    generalize st.binSizes.foldr max 0 = Mv
    conv_rhs => rw [hsplit]
    rw [List.map_append, List.map_cons, List.map_nil, calculate_last_overshoot_one]
  rw [packStep, hlast]
  simp only [hpym]
  rw [plainStep]
  simp only [hos]

theorem plainStep_binSizes_length (st : PackState) (p : ℕ × ℕ) :
    (plainStep st p).binSizes.length = st.binSizes.length := by
  rw [plainStep]
  exact List.length_set st.binSizes _ _

theorem packFold_one_eq_plain (n : ℕ) (hn : 2 ≤ n) :
    ∀ (l : List (ℕ × ℕ)) (st : PackState), st.binSizes.length = n →
      l.foldlM (packStep 1) st = some (l.foldl plainStep st)
  | [], st, _ => by simp
  | p :: ps, st, h => by
    rw [List.foldlM_cons, packStep_one_eq_plainStep st p (by omega), List.foldl_cons]
    have hlen : (plainStep st p).binSizes.length = n := by
      rw [plainStep_binSizes_length, h]
    simpa using packFold_one_eq_plain n hn ps (plainStep st p) hlen

/-! ### Claim C1: packing is a partition -/

/-- C1 (as stated, refuted at `num_bins = 1`): on the one-item map `{3: 5}`
with `num_bins = 1` and `last_bin_size_fraction = 1/2` the function returns
nothing at all — the `max(adjusted_last_bin_size, *bin_sizes[:-1])` call
receives no iterable and raises `TypeError` — so no partition is produced
even though `num_bins ≥ 1` and the fraction lies in `(0, 1]`. -/
theorem C1_counterexample_num_bins_one :
    distribute_files_uniformly [3] (fun _ => 5) 1 (1 / 2) = none := by decide

/-- C1 (amended: `num_bins ≥ 2`): for every item-to-size map, every
`num_bins ≥ 2` and every `last_bin_size_fraction ∈ (0,1]`, the pair
`(bins, bin_sizes)` returned by `distribute_files_uniformly` is a partition
of the input: the concatenation of the bins is a permutation of the items
(so with distinct keys every item appears in exactly one bin), each
`bin_sizes[i]` is the sum of the sizes of the items placed in `bins[i]`, and
the bin sizes sum to the total item size.  (With `num_bins = 1` and a
non-empty map the function instead raises `TypeError`.) -/
theorem C1_partition (keys : List ℕ) (sz : ℕ → ℕ) (n : ℕ) (f : ℚ)
    (hn : 2 ≤ n) (hf0 : 0 < f) (hf1 : f ≤ 1) :
    ∃ bins sizes, distribute_files_uniformly keys sz n f = some (bins, sizes) ∧
      bins.flatten.Perm keys ∧
      (∀ i, i < n → sizes.getD i 0 = ((bins.getD i []).map sz).sum) ∧
      sizes.sum = (keys.map sz).sum := by
  obtain ⟨bins, sizes, hres, _, _, hperm, hsum, hbin⟩ :=
    distribute_spec keys sz n f hn hf0 hf1
  exact ⟨bins, sizes, hres, hperm, hbin, hsum⟩

/-- Witness for `C1_partition` at the concrete map `{0: 1, 1: 2}`,
`num_bins = 2`, fraction `1`. -/
theorem C1_partition_witness :
    ∃ bins sizes,
      distribute_files_uniformly [0, 1] (fun k => k + 1) 2 1 = some (bins, sizes) ∧
      bins.flatten.Perm [0, 1] ∧
      (∀ i, i < 2 → sizes.getD i 0 = ((bins.getD i []).map (fun k => k + 1)).sum) ∧
      sizes.sum = ([0, 1].map (fun k => k + 1)).sum :=
  C1_partition [0, 1] (fun k => k + 1) 2 1 (by norm_num) (by norm_num) (by norm_num)

/-! ### Claim C2: fraction `1` is plain uniform greedy balancing -/

/-- C2 (as stated, refuted at `num_bins = 1`): with one bin and a non-empty
map, the plain uniform greedy balancer puts the single item into the single
bin, but `distribute_files_uniformly` with fraction `1` raises `TypeError`
(the varargs `max` call gets no iterable), so the two do not agree for every
`num_bins ≥ 1`. -/
theorem C2_counterexample_num_bins_one :
    distribute_files_uniformly [5] (fun _ => 7) 1 1
      ≠ some (plain_uniform_greedy [5] (fun _ => 7) 1) := by decide

/-- C2 (amended: `num_bins ≥ 2`): for every item-to-size map and every
`num_bins ≥ 2`, `distribute_files_uniformly` with
`last_bin_size_fraction = 1` returns exactly the bins and bin sizes of the
plain uniform greedy balancer in which every bin — the last included — uses
the regular overshoot formula `item_size - (max_bin_size - bin_size)`:
the last-bin special case is the identity at fraction `1`. -/
theorem C2_fraction_one_is_plain (keys : List ℕ) (sz : ℕ → ℕ) (n : ℕ) (hn : 2 ≤ n) :
    distribute_files_uniformly keys sz n 1
      = some (plain_uniform_greedy keys sz n) := by
  rw [distribute_files_uniformly, if_pos (by norm_num : (0 : ℚ) < 1 ∧ (1 : ℚ) ≤ 1),
    plain_uniform_greedy]
  simp only [packFold_one_eq_plain n hn _ ⟨List.replicate n [], List.replicate n 0⟩
    (List.length_replicate n 0), Option.map_some']

/-- Witness for `C2_fraction_one_is_plain` at the map
`{0: 10, 1: 3, 2: 3}` and `num_bins = 2`. -/
theorem C2_fraction_one_is_plain_witness :
    distribute_files_uniformly [0, 1, 2] (fun k => if k = 0 then 10 else 3) 2 1
      = some (plain_uniform_greedy [0, 1, 2] (fun k => if k = 0 then 10 else 3) 2) :=
  C2_fraction_one_is_plain [0, 1, 2] (fun k => if k = 0 then 10 else 3) 2 (by norm_num)

/-! ### Claim C5: `num_bins = 1` -/

/-- C5: the spec says a single bin receives all items, but on the map
`{0: 1}` with `num_bins = 1` (and fraction `1`) the code raises `TypeError`:
`bin_sizes[:-1]` is empty, so `max(adjusted_last_bin_size)` is applied to a
single `int`, which is not iterable.  The model therefore returns `none`
instead of `some ([[0]], [1])`. -/
theorem C5_num_bins_one_raises :
    distribute_files_uniformly [0] (fun _ => 1) 1 1 = none := by decide

/-! ### Claim C8: bin-count invariant -/

/-- C8 (as stated, refuted at `num_bins = 0`): on the non-empty map `{7: 3}`
with `num_bins = 0` the function raises (`bin_sizes[-1]` on an empty list is
an `IndexError`) instead of returning zero bins. -/
theorem C8_counterexample_zero_bins :
    distribute_files_uniformly [7] (fun _ => 3) 0 1 = none := by decide

/-- C8 (amended): `distribute_files_uniformly` returns exactly `num_bins`
bins and a bin-size vector of length `num_bins` whenever `num_bins ≥ 2`, and
also for the empty map with any non-negative `num_bins`; with a non-empty
map and `num_bins ∈ {0, 1}` it instead raises (`IndexError` / `TypeError`). -/
theorem C8_bin_count (keys : List ℕ) (sz : ℕ → ℕ) (n : ℕ) (f : ℚ)
    (hf0 : 0 < f) (hf1 : f ≤ 1) :
    (2 ≤ n → ∃ bins sizes, distribute_files_uniformly keys sz n f = some (bins, sizes) ∧
      bins.length = n ∧ sizes.length = n) ∧
    (keys = [] → distribute_files_uniformly keys sz n f
      = some (List.replicate n [], List.replicate n 0)) := by
  constructor
  · intro hn
    obtain ⟨bins, sizes, hres, hlb, hls, _, _, _⟩ := distribute_spec keys sz n f hn hf0 hf1
    exact ⟨bins, sizes, hres, hlb, hls⟩
  · rintro rfl
    rw [distribute_files_uniformly, if_pos ⟨hf0, hf1⟩]
    simp [py_sorted]

/-- Witness for `C8_bin_count` at the map `{0: 4}`, `num_bins = 3`,
fraction `1/3`. -/
theorem C8_bin_count_witness :
    (2 ≤ 3 → ∃ bins sizes,
      distribute_files_uniformly [0] (fun _ => 4) 3 (1 / 3) = some (bins, sizes) ∧
      bins.length = 3 ∧ sizes.length = 3) ∧
    (([0] : List ℕ) = [] → distribute_files_uniformly [0] (fun _ => 4) 3 (1 / 3)
      = some (List.replicate 3 [], List.replicate 3 0)) :=
  C8_bin_count [0] (fun _ => 4) 3 (1 / 3) (by norm_num) (by norm_num)

/-! ### Claim C7: the last-bin overshoot formula -/

/-- C7 (as stated, refuted): with `file_size = 1`, `max_bin_size = 0`,
`last_bin_size = 0` and fraction `3/10`, the raw overshoot is `1 ≥ 0` and
the code returns `int(1 / 0.3) = 3`, not the exact quotient `10/3`: the
result is truncated to an integer, so it is not "exactly
`raw_overshoot / last_bin_size_fraction`". -/
theorem C7_counterexample_truncation :
    calculate_last_overshoot 1 0 0 (3 / 10)
      ≠ ((1 : ℚ) - ((0 : ℚ) * (3 / 10) - (0 : ℚ))) / (3 / 10) := by decide

/-- C7 (amended): with `raw_overshoot = size - (max_bin_size * f - last_bin_size)`,
`calculate_last_overshoot` returns `raw_overshoot` itself when it is
negative, and otherwise the integer truncation `⌊raw_overshoot / f⌋` of the
quotient (the `int(...)` in the source), not the exact quotient. -/
theorem C7_last_overshoot_formula (file_size : ℕ) (max_bin_size : ℤ)
    (last_bin_size : ℕ) (f : ℚ) (hf0 : 0 < f) (hf1 : f ≤ 1) :
    (((file_size : ℚ) - ((max_bin_size : ℚ) * f - (last_bin_size : ℚ))) < 0 →
      calculate_last_overshoot file_size max_bin_size last_bin_size f
        = (file_size : ℚ) - ((max_bin_size : ℚ) * f - (last_bin_size : ℚ))) ∧
    (0 ≤ ((file_size : ℚ) - ((max_bin_size : ℚ) * f - (last_bin_size : ℚ))) →
      calculate_last_overshoot file_size max_bin_size last_bin_size f
        = ((⌊((file_size : ℚ) - ((max_bin_size : ℚ) * f - (last_bin_size : ℚ))) / f⌋ : ℤ) : ℚ)) := by
  constructor
  · intro h
    rw [calculate_last_overshoot, if_pos h]
  · intro h
    rw [calculate_last_overshoot, if_neg (not_lt.mpr h)]

/-- Witness for `C7_last_overshoot_formula` at `file_size = 1`,
`max_bin_size = 0`, `last_bin_size = 0`, fraction `3/10`. -/
theorem C7_last_overshoot_formula_witness :
    (((1 : ℕ) : ℚ) - (((0 : ℤ) : ℚ) * (3 / 10) - ((0 : ℕ) : ℚ)) < 0 →
      calculate_last_overshoot 1 0 0 (3 / 10)
        = ((1 : ℕ) : ℚ) - (((0 : ℤ) : ℚ) * (3 / 10) - ((0 : ℕ) : ℚ))) ∧
    (0 ≤ ((1 : ℕ) : ℚ) - (((0 : ℤ) : ℚ) * (3 / 10) - ((0 : ℕ) : ℚ)) →
      calculate_last_overshoot 1 0 0 (3 / 10)
        = ((⌊(((1 : ℕ) : ℚ) - (((0 : ℤ) : ℚ) * (3 / 10) - ((0 : ℕ) : ℚ))) / (3 / 10)⌋ : ℤ) : ℚ)) :=
  C7_last_overshoot_formula 1 0 0 (3 / 10) (by norm_num) (by norm_num)

/-! ### Claim C10: recovery-block count is positive

Facts about the binary64 rounding, used to settle C10.  The claim as stated
is false: Python 2's `math.ceil` converts the exact `Fraction` quotient
through `float`, and a sub-denormal quotient (reachable from the command line
via `--redundancy 1E-330`, which passes the `> 0` argument check) underflows
to `0.0`, so `get_num_recovery_blocks` returns `0` and the assertion
`0 < num_recovery_blocks` in `create_par2_files` fails at its lower half.
Within the binary64 range the claim does hold: any positive double has a
ceiling `≥ 1`. -/

/-- A rational in `[0, 1/2)` rounds to `0`. -/
theorem round_half_even_of_lt_half {q : ℚ} (h0 : 0 ≤ q) (h : q < 1 / 2) :
    round_half_even q = 0 := by
  have hf : ⌊q⌋ = 0 := Int.floor_eq_zero_iff.mpr ⟨h0, by linarith⟩
  rw [round_half_even, hf]
  simp only [Int.cast_zero, sub_zero]
  rw [if_pos h]

/-- Rounding to nearest never goes below the floor. -/
theorem le_round_half_even (q : ℚ) : ⌊q⌋ ≤ round_half_even q := by
  rw [round_half_even]
  split_ifs <;> omega

/-- Rounding to nearest exceeds the value by at most `1/2`. -/
theorem round_half_even_le_add_half (q : ℚ) :
    (round_half_even q : ℚ) ≤ q + 1 / 2 := by
  have h1 : (⌊q⌋ : ℚ) ≤ q := Int.floor_le q
  rw [round_half_even]
  split_ifs with ha hb hc
  · linarith
  · push_cast
    linarith [le_of_lt hb]
  · linarith
  · push_cast
    linarith [not_lt.mp ha, not_lt.mp hb]

theorem two_zpow_pos (n : ℤ) : (0 : ℚ) < (2 : ℚ) ^ n := zpow_pos (by norm_num) n

theorem two_zpow_neg_eq (k : ℕ) : (2 : ℚ) ^ (-(k : ℤ)) = ((2 : ℚ) ^ k)⁻¹ := by
  rw [zpow_neg, zpow_natCast]

/-- A positive rational between the smallest positive double `2 ^ (-1074)`
and `2 ^ 1023` rounds to a positive finite binary64 double: no underflow to
zero and no `OverflowError`. -/
theorem float_of_pos_rat_pos {q : ℚ}
    (hlo : ((2 : ℚ) ^ (1074 : ℕ))⁻¹ ≤ q)
    (hhi : q ≤ (2 : ℚ) ^ (1023 : ℕ)) :
    ∃ v : ℚ, float_of_pos_rat q = some v ∧ 0 < v := by
  have hq : 0 < q := lt_of_lt_of_le (by positivity) hlo
  have hb2 : ((2 : ℕ) : ℚ) = 2 := by norm_num
  have he1 : (2 : ℚ) ^ Int.log 2 q ≤ q := by
    have h : ((2 : ℕ) : ℚ) ^ Int.log 2 q ≤ q := Int.zpow_log_le_self (by norm_num) hq
    rwa [hb2] at h
  have he2 : q < (2 : ℚ) ^ (Int.log 2 q + 1) := by
    have h : q < ((2 : ℕ) : ℚ) ^ (Int.log 2 q + 1) := Int.lt_zpow_succ_log_self (by norm_num) q
    rwa [hb2] at h
  have hlo' : (2 : ℚ) ^ (-(1074 : ℤ)) ≤ q := by
    rw [show (-(1074 : ℤ)) = (-((1074 : ℕ) : ℤ)) from by norm_num, two_zpow_neg_eq]
    exact hlo
  have he_lb : -1074 ≤ Int.log 2 q := by
    by_contra hcon
    push_neg at hcon
    have h1 : Int.log 2 q + 1 ≤ -1074 := by omega
    have h2 : (2 : ℚ) ^ (Int.log 2 q + 1) ≤ (2 : ℚ) ^ (-(1074 : ℤ)) :=
      zpow_le_zpow_right₀ (by norm_num) h1
    linarith
  have he_ub : Int.log 2 q ≤ 1023 := by
    have hhi' : q ≤ ((2 : ℕ) : ℚ) ^ ((1023 : ℤ)) := by
      rw [show ((1023 : ℤ)) = (((1023 : ℕ) : ℤ)) from by norm_num, zpow_natCast, hb2]
      exact hhi
    have hmono : Int.log 2 q ≤ Int.log 2 (((2 : ℕ) : ℚ) ^ ((1023 : ℤ))) :=
      Int.log_mono_right hq hhi'
    rwa [Int.log_zpow (by norm_num)] at hmono
  set s : ℤ := float_scale q with hs_def
  have hs_le_e : s ≤ Int.log 2 q := by
    rw [hs_def, float_scale]
    exact max_le (by omega) he_lb
  have hs_ub : s ≤ 971 := by
    rw [hs_def, float_scale]
    exact max_le (by omega) (by norm_num)
  have hspos : (0 : ℚ) < (2 : ℚ) ^ s := two_zpow_pos s
  have hx1 : (1 : ℚ) ≤ q / (2 : ℚ) ^ s := by
    rw [le_div_iff₀ hspos, one_mul]
    calc (2 : ℚ) ^ s ≤ (2 : ℚ) ^ Int.log 2 q :=
          zpow_le_zpow_right₀ (by norm_num) hs_le_e
    _ ≤ q := he1
  have hm1 : 1 ≤ float_mantissa q := by
    rw [float_mantissa, ← hs_def]
    calc (1 : ℤ) ≤ ⌊q / (2 : ℚ) ^ s⌋ := Int.le_floor.mpr (by exact_mod_cast hx1)
    _ ≤ _ := le_round_half_even _
  have hv_pos : (0 : ℚ) < (float_mantissa q : ℚ) * (2 : ℚ) ^ s := by
    apply mul_pos _ hspos
    exact_mod_cast lt_of_lt_of_le one_pos hm1
  have hm_ub : (float_mantissa q : ℚ) ≤ q / (2 : ℚ) ^ s + 1 / 2 := by
    rw [float_mantissa, ← hs_def]
    exact round_half_even_le_add_half _
  have hv_ub : (float_mantissa q : ℚ) * (2 : ℚ) ^ s < (2 : ℚ) ^ (1024 : ℕ) := by
    have h1 : (float_mantissa q : ℚ) * (2 : ℚ) ^ s
        ≤ (q / (2 : ℚ) ^ s + 1 / 2) * (2 : ℚ) ^ s :=
      mul_le_mul_of_nonneg_right hm_ub (le_of_lt hspos)
    have h2 : (q / (2 : ℚ) ^ s + 1 / 2) * (2 : ℚ) ^ s
        = q + (2 : ℚ) ^ s / 2 := by
      field_simp
      ring
    have h3 : (2 : ℚ) ^ s ≤ (2 : ℚ) ^ (971 : ℤ) :=
      zpow_le_zpow_right₀ (by norm_num) hs_ub
    have h4 : (2 : ℚ) ^ (971 : ℤ) = (2 : ℚ) ^ (971 : ℕ) := by
      rw [show ((971 : ℤ)) = (((971 : ℕ) : ℤ)) from by norm_num, zpow_natCast]
    have h5 : (2 : ℚ) ^ (1023 : ℕ) + (2 : ℚ) ^ (971 : ℕ) / 2 < (2 : ℚ) ^ (1024 : ℕ) := by
      norm_num
    calc (float_mantissa q : ℚ) * (2 : ℚ) ^ s ≤ q + (2 : ℚ) ^ s / 2 := by
          rw [← h2]; exact h1
    _ ≤ (2 : ℚ) ^ (1023 : ℕ) + (2 : ℚ) ^ (971 : ℕ) / 2 := by
          have h6 := h3
          rw [h4] at h6
          linarith
    _ < _ := h5
  refine ⟨(float_mantissa q : ℚ) * (2 : ℚ) ^ s, ?_, hv_pos⟩
  rw [float_of_pos_rat, ← hs_def, if_neg (not_le.mpr hv_ub)]

/-- C10 (amended): for every `num_data_blocks ≥ 1` and every redundancy
fraction strictly between `0` and `1` whose exact quotient
`num_data_blocks * redundancy_fraction / (1 - redundancy_fraction)` lies
within the binary64 range — at least the smallest positive double
`2 ^ (-1074)` and at most `2 ^ 1023` — `get_num_recovery_blocks` returns an
integer `≥ 1`, so the lower half of the assertion
`0 < num_recovery_blocks < 20000` in `create_par2_files` cannot fail there.
Outside that range the float conversion inside Python 2's `math.ceil` breaks
the claim: a sub-denormal quotient underflows to `0.0` and the function
returns `0` (see the counterexample below), and a quotient past the largest
finite double raises `OverflowError`. -/
theorem C10_recovery_blocks_pos (num_data_blocks : ℕ) (redundancy_fraction : ℚ)
    (hd : 1 ≤ num_data_blocks) (h0 : 0 < redundancy_fraction)
    (h1 : redundancy_fraction < 1)
    (hlo : ((2 : ℚ) ^ (1074 : ℕ))⁻¹
      ≤ (num_data_blocks : ℚ) * redundancy_fraction / (1 - redundancy_fraction))
    (hhi : (num_data_blocks : ℚ) * redundancy_fraction / (1 - redundancy_fraction)
      ≤ (2 : ℚ) ^ (1023 : ℕ)) :
    ∃ r : ℤ, get_num_recovery_blocks num_data_blocks redundancy_fraction = some r
      ∧ 1 ≤ r := by
  obtain ⟨v, hv_eq, hv_pos⟩ := float_of_pos_rat_pos hlo hhi
  have hq_pos : 0 < (num_data_blocks : ℚ) * redundancy_fraction / (1 - redundancy_fraction) :=
    lt_of_lt_of_le (by positivity) hlo
  refine ⟨⌈v⌉, ?_, Int.ceil_pos.mpr hv_pos⟩
  rw [get_num_recovery_blocks, py_float, if_neg (ne_of_gt hq_pos), if_pos hq_pos, hv_eq]
  rfl

/-- Witness for `C10_recovery_blocks_pos` at the spec's own example
`recovery_blocks(100, 1/11) = 10`: the quotient is `10`, comfortably inside
the binary64 range. -/
theorem C10_recovery_blocks_pos_witness :
    ∃ r : ℤ, get_num_recovery_blocks 100 (1 / 11) = some r ∧ 1 ≤ r :=
  C10_recovery_blocks_pos 100 (1 / 11) (by norm_num) (by norm_num) (by norm_num)
    (by norm_num) (by norm_num)

/-- C10 counterexample: `num_data_blocks = 1` and
`redundancy_fraction = 1 / (3 * 10 ^ 330)` satisfy the claim's hypotheses
(`num_data_blocks ≥ 1`, fraction strictly between `0` and `1`), yet
`get_num_recovery_blocks` returns `0`, not an integer `≥ 1`.  The input is
reachable from the command line: `--redundancy 1E-330` passes the `> 0`
argument check and `main` divides it by `num_volumes = 3`; the exact quotient
`1 / (3 * 10 ^ 330 - 1)` is far below `2 ^ (-1075)`, so `float` underflows it
to `0.0`, `math.ceil(0.0) = 0.0`, and the assertion
`0 < num_recovery_blocks` in `create_par2_files` then fails. -/
theorem C10_counterexample_float_underflow :
    (1 : ℕ) ≤ 1 ∧ (0 : ℚ) < 1 / (3 * 10 ^ 330) ∧ (1 / (3 * 10 ^ 330) : ℚ) < 1 ∧
    get_num_recovery_blocks 1 (1 / (3 * 10 ^ 330)) = some 0 := by
  refine ⟨le_refl 1, by positivity, by norm_num, ?_⟩
  have hq_eq : ((1 : ℕ) : ℚ) * (1 / (3 * 10 ^ 330)) / (1 - 1 / (3 * 10 ^ 330))
      = 1 / (3 * 10 ^ 330 - 1) := by
    norm_num
  have hq0_pos : (0 : ℚ) < 1 / (3 * 10 ^ 330 - 1) := by norm_num
  have he_ub : Int.log 2 ((1 : ℚ) / (3 * 10 ^ 330 - 1)) ≤ -1023 := by
    by_contra hcon
    push_neg at hcon
    have h2 : (2 : ℚ) ^ (-(1022 : ℤ))
        ≤ (2 : ℚ) ^ Int.log 2 ((1 : ℚ) / (3 * 10 ^ 330 - 1)) :=
      zpow_le_zpow_right₀ (by norm_num) (by omega)
    have h3 : ((2 : ℕ) : ℚ) ^ Int.log 2 ((1 : ℚ) / (3 * 10 ^ 330 - 1))
        ≤ (1 : ℚ) / (3 * 10 ^ 330 - 1) := Int.zpow_log_le_self (by norm_num) hq0_pos
    have hb2 : ((2 : ℕ) : ℚ) = 2 := by norm_num
    rw [hb2] at h3
    have h4 : (2 : ℚ) ^ (-(1022 : ℤ)) = ((2 : ℚ) ^ (1022 : ℕ))⁻¹ := by
      rw [show (-(1022 : ℤ)) = (-((1022 : ℕ) : ℤ)) from by norm_num, two_zpow_neg_eq]
    have h5 : (1 : ℚ) / (3 * 10 ^ 330 - 1) < ((2 : ℚ) ^ (1022 : ℕ))⁻¹ := by
      norm_num
    rw [h4] at h2
    linarith
  have hscale : float_scale ((1 : ℚ) / (3 * 10 ^ 330 - 1)) = -1074 := by
    rw [float_scale]
    exact max_eq_right (by omega)
  have hmant : float_mantissa ((1 : ℚ) / (3 * 10 ^ 330 - 1)) = 0 := by
    rw [float_mantissa, hscale]
    apply round_half_even_of_lt_half
    · positivity
    · have hp : (2 : ℚ) ^ (-(1074 : ℤ)) = ((2 : ℚ) ^ (1074 : ℕ))⁻¹ := by
        rw [show (-(1074 : ℤ)) = (-((1074 : ℕ) : ℤ)) from by norm_num, two_zpow_neg_eq]
      rw [hp, div_inv_eq_mul]
      norm_num
  have hfloat : float_of_pos_rat ((1 : ℚ) / (3 * 10 ^ 330 - 1)) = some 0 := by
    rw [float_of_pos_rat, hmant, hscale]
    rw [if_neg (by norm_num)]
    norm_num
  rw [get_num_recovery_blocks, hq_eq, py_float, if_neg (ne_of_gt hq0_pos),
    if_pos hq0_pos, hfloat]
  simp [Int.ceil_zero]

/-! ### Claim C4: the unevenness gate -/

/-- C4: on the spec's rejection scenario `{A: 100, B: 1}` (keys `0`, `1`)
packed into 3 bins with `force = False`, the unevenness condition
`max / average = 300/101 > 3 - 0.05` does hold, and the run aborts before
any external tool — but evaluating the error message reads
`args.compression`, an attribute `argparse` never set (the flag's
destination is `compress`), so the abort is an uncaught `AttributeError`
traceback (still exit status 1), not the printed feasibility explanation. -/
theorem C4_unevenness_aborts_with_attribute_error :
    distribute_files_uniformly [0, 1] (fun k => if k = 0 then 100 else 1) 3 1
      = some ([[0], [1], []], [100, 1, 0]) ∧
    unevenness_gate [100, 1, 0] 1 3 false (parsed_bool_attrs false false false false)
      = MainOutcome.attribute_error "compression" := by
  constructor
  · decide
  · decide

/-! ### Helper lemmas: the block-size heuristic -/

theorem MB_pos : 0 < MB := by norm_num [MB]

theorem getD_replicate_lt (a d : ℕ) : ∀ {n i : ℕ}, i < n → (List.replicate n a).getD i d = a
  | 0, _, h => absurd h (by omega)
  | n + 1, 0, _ => rfl
  | n + 1, i + 1, h => by
    rw [List.replicate_succ, List.getD_cons_succ]
    exact getD_replicate_lt a d (by omega)

theorem insort_const_replicate (a : ℕ) : ∀ n : ℕ,
    insort (· ≤ ·) a (List.replicate n a) = List.replicate (n + 1) a
  | 0 => rfl
  | n + 1 => by
    rw [List.replicate_succ, insort, if_pos (le_refl a), ← List.replicate_succ,
      ← List.replicate_succ]

theorem py_sorted_replicate (a : ℕ) : ∀ n : ℕ,
    py_sorted (· ≤ ·) (List.replicate n a) = List.replicate n a
  | 0 => rfl
  | n + 1 => by
    rw [List.replicate_succ]
    show insort (· ≤ ·) a (py_sorted (· ≤ ·) (List.replicate n a)) = _
    rw [py_sorted_replicate a n, insort_const_replicate, ← List.replicate_succ]

/-- If the pre-loop estimate returns at all, it returns a positive block
size. -/
theorem pre_loop_pos {l : List ℕ} {bs0 : ℕ}
    (h : pre_loop_block_size l = .ok bs0) : 1 ≤ bs0 := by
  unfold pre_loop_block_size at h
  cases hs : py_sorted (· ≤ ·) l with
  | nil => rw [hs] at h; exact absurd h (by simp)
  | cons a t =>
    rw [hs] at h
    simp only [] at h
    split_ifs at h with h1 h2 h3 h4 h5
    all_goals first
      | exact absurd h (fun hh => Except.noConfusion hh)
      | (rw [Except.ok.injEq] at h
         subst h
         first
           | (rw [Nat.one_le_div_iff (Nat.pos_of_ne_zero h5)]
              omega)
           | omega
           | exact le_trans (by omega) (le_max_right _ 4096))

/-- If the pre-loop estimate returns at all, the largest (sorted-last) file
size is positive. -/
theorem pre_loop_last_pos {l : List ℕ} {bs0 : ℕ}
    (h : pre_loop_block_size l = .ok bs0) :
    1 ≤ (py_sorted (· ≤ ·) l).getLast?.getD 0 := by
  unfold pre_loop_block_size at h
  cases hs : py_sorted (· ≤ ·) l with
  | nil => rw [hs] at h; exact absurd h (by simp)
  | cons a t =>
    rw [hs] at h
    simp only [] at h
    by_contra hzero
    have hlast0 : ((a :: t).getLast?.getD 0 : ℕ) = 0 := by omega
    have hxmem : (a :: t).getD ((a :: t).length / 4) 0 ∈ a :: t := by
      rw [List.getD_eq_getElem _ _ (by simp; omega)]
      exact List.getElem_mem _
    have hsorted : List.Sorted (· ≤ ·) (a :: t) := hs ▸ py_sorted_sorted l
    have hxle := sorted_le_getLast hsorted _ hxmem
    have hx0 : (a :: t).getD ((a :: t).length / 4) 0 = 0 := by omega
    rw [if_pos (by rw [hx0, hlast0]), if_pos hx0] at h
    exact absurd h (by simp)

/-- The pre-loop estimate never reports fuel exhaustion (only the doubling
loop can). -/
theorem pre_loop_ne_outOfFuel (l : List ℕ) :
    pre_loop_block_size l ≠ .error .outOfFuel := by
  unfold pre_loop_block_size
  cases hs : py_sorted (· ≤ ·) l with
  | nil => simp
  | cons a t =>
    simp only []
    split_ifs <;> simp

/-- With a positive largest size, the pre-loop estimate never divides by
zero. -/
theorem pre_loop_ne_zeroDiv {l : List ℕ}
    (hpos : 1 ≤ (py_sorted (· ≤ ·) l).getLast?.getD 0) :
    pre_loop_block_size l ≠ .error .zeroDiv := by
  unfold pre_loop_block_size
  cases hs : py_sorted (· ≤ ·) l with
  | nil => simp
  | cons a t =>
    rw [hs] at hpos
    simp only []
    split_ifs with h1 h2 h3 h4 h5 <;> try simp
    · omega
    · have : 1 ≤ (a :: t).getD ((a :: t).length / 4) 0 / MB :=
        (Nat.one_le_div_iff MB_pos).mpr (le_of_lt h4)
      omega

/-- On a non-empty all-zero size list the pre-loop estimate raises
`ZeroDivisionError` (`total_size / x` with `x = 0`). -/
theorem pre_loop_all_zero {l : List ℕ} (hne : l ≠ []) (hzero : ∀ s ∈ l, s = 0) :
    pre_loop_block_size l = .error .zeroDiv := by
  unfold pre_loop_block_size
  cases hs : py_sorted (· ≤ ·) l with
  | nil =>
    have hlen := (py_sorted_perm (· ≤ ·) l).length_eq
    rw [hs] at hlen
    exact absurd (List.eq_nil_of_length_eq_zero hlen.symm) hne
  | cons a t =>
    have hmem : ∀ s ∈ a :: t, s = 0 := by
      intro s hsmem
      exact hzero s (((py_sorted_perm (· ≤ ·) l).mem_iff).mp (hs ▸ hsmem))
    have hx0 : (a :: t).getD ((a :: t).length / 4) 0 = 0 := by
      apply hmem
      rw [List.getD_eq_getElem _ _ (by simp; omega)]
      exact List.getElem_mem _
    have hlast0 : (a :: t).getLast?.getD 0 = 0 := by
      apply hmem
      rw [List.getLast?_eq_getLast_of_ne_nil (List.cons_ne_nil a t)]
      exact List.getLast_mem _
    simp only []
    rw [if_pos (by rw [hx0, hlast0]), if_pos hx0]

/-- The doubling loop never divides by zero while the block size and the cap
stay positive. -/
theorem block_loop_ne_zeroDiv (T n M : ℕ) (hM : 1 ≤ M) :
    ∀ (fuel bs : ℕ), 1 ≤ bs → block_loop T n M fuel bs ≠ .error .zeroDiv
  | 0, bs, _ => by rw [block_loop]; simp
  | fuel + 1, bs, hbs => by
    rw [block_loop]
    rw [if_neg (by omega)]
    split
    · exact block_loop_ne_zeroDiv T n M hM fuel (min (bs * 2) M) (by omega)
    · simp

/-- Once the block size has reached the cap `M = sizes[-1]`, the loop guard
is false whenever there are at most 10000 files. -/
theorem block_loop_guard_at_cap (T n M : ℕ) (hn : n ≤ 10000) (hTM : T ≤ n * M)
    (hM : 1 ≤ M) : ¬ (T / M + n > 20000) := by
  have h1 : T / M ≤ n := by
    calc T / M ≤ n * M / M := Nat.div_le_div_right hTM
      _ = n := Nat.mul_div_cancel n hM
  omega

/-- Climbing part of termination: from any block size `1 ≤ bs ≤ M` the loop
returns (or raises) within `M - bs + 1` iterations, because each iteration
at least increments the block size until the cap is reached, where the guard
fails. -/
theorem block_loop_reaches (T n M : ℕ) (hn : n ≤ 10000) (hTM : T ≤ n * M) (hM : 1 ≤ M) :
    ∀ (fuel bs : ℕ), 1 ≤ bs → bs ≤ M → M < fuel + bs →
      block_loop T n M fuel bs ≠ .error .outOfFuel
  | 0, bs, _, hbsM, hfuel => by omega
  | fuel + 1, bs, hbs, hbsM, hfuel => by
    rw [block_loop]
    rw [if_neg (by omega)]
    split
    · rename_i hguard
      have hbslt : bs < M := by
        rcases Nat.lt_or_ge bs M with h | h
        · exact h
        · have hbseq : bs = M := by omega
          rw [hbseq] at hguard
          exact absurd hguard (block_loop_guard_at_cap T n M hn hTM hM)
      exact block_loop_reaches T n M hn hTM hM fuel (min (bs * 2) M)
        (by omega) (by omega) (by omega)
    · simp

/-- Entry into the climb: from any positive start the loop terminates within
`M + 3` iterations (one step caps an oversized start down to `M`). -/
theorem block_loop_enters (T n M : ℕ) (hn : n ≤ 10000) (hTM : T ≤ n * M) (hM : 1 ≤ M)
    (bs0 : ℕ) (hbs0 : 1 ≤ bs0) :
    block_loop T n M (M + 3) bs0 ≠ .error .outOfFuel := by
  rcases le_or_lt bs0 M with hle | hgt
  · exact block_loop_reaches T n M hn hTM hM (M + 3) bs0 hbs0 hle (by omega)
  · rw [block_loop]
    rw [if_neg (by omega)]
    split
    · have hmin : min (bs0 * 2) M = M := by omega
      rw [hmin]
      exact block_loop_reaches T n M hn hTM hM (M + 2) M hM (le_refl M) (by omega)
    · simp

/-! ### Claim C3: termination of `get_suitable_block_size` -/

/-- On 20001 files of size 1 the doubling loop is stuck at block size 1:
the guard `20001 / 1 + 20001 > 20000` holds and the update
`min(1 * 2, 1) = 1` leaves the state unchanged, so every amount of fuel is
exhausted — the Python loop runs forever. -/
theorem block_loop_stuck_ones :
    ∀ fuel : ℕ, block_loop 20001 20001 1 fuel 1 = .error .outOfFuel
  | 0 => rfl
  | fuel + 1 => by
    rw [block_loop, if_neg (by omega), if_pos (by norm_num)]
    exact block_loop_stuck_ones fuel

/-- `get_suitable_block_size` never returns on 20001 files of size 1,
whatever the fuel: the pre-loop estimate is 4096, the first loop iteration
caps the block size down to `sizes[-1] = 1`, and from there the loop spins
forever. -/
theorem gsbs_diverges_on_20001_ones :
    ∀ fuel : ℕ, get_suitable_block_size fuel (List.replicate 20001 1)
      = .error .outOfFuel := by
  have hsorted : py_sorted (· ≤ ·) (List.replicate 20001 1) = List.replicate 20001 1 :=
    py_sorted_replicate 1 20001
  have hsum : (List.replicate 20001 1).sum = 20001 := by
    rw [List.sum_replicate, smul_eq_mul, mul_one]
  have hlast : (List.replicate 20001 1).getLast?.getD 0 = 1 := by
    rw [show (20001 : ℕ) = 20000 + 1 from rfl, List.replicate_succ',
      List.getLast?_concat]
    rfl
  have hpre : pre_loop_block_size (List.replicate 20001 1) = .ok 4096 := by
    obtain ⟨a, t, hat⟩ := List.exists_cons_of_ne_nil
      (show List.replicate 20001 (1 : ℕ) ≠ [] from
        List.ne_nil_of_length_pos (by rw [List.length_replicate]; omega))
    rw [pre_loop_block_size, hsorted, hat]
    simp only []
    rw [← hat]
    rw [List.length_replicate, getD_replicate_lt 1 0 (by norm_num : 20001 / 4 < 20001),
      hlast, hsum]
    rw [if_pos rfl, if_neg (by omega), if_neg (by omega)]
    rw [getD_replicate_lt 1 0 (by norm_num : 20001 / 5 < 20001)]
    rw [show (1 : ℕ) / 4 ⊔ 4096 = 4096 from by omega]
  intro fuel
  rw [get_suitable_block_size, hpre, hsorted]
  simp only []
  rw [hsum, hlast, List.length_replicate]
  cases fuel with
  | zero => rfl
  | succ fuel =>
    rw [block_loop, if_neg (by omega), if_pos (by norm_num),
      show min (4096 * 2) 1 = 1 by omega, block_loop_stuck_ones fuel]

/-- C3 (as stated, refuted): the block-size heuristic does NOT terminate on
every non-empty file-size map.  On 20001 files of size 1 the doubling loop
caps the block size at the largest file size 1 while the ceiling
`total / 1 + 20001 > 20000` is still violated, and `min(block_size * 2, 1)`
then never changes the state: the loop spins forever instead of "accepting
the violation". -/
theorem C3_counterexample_divergence :
    ¬ gsbs_terminates (List.replicate 20001 1) := by
  intro h
  obtain ⟨fuel, hfuel⟩ := h
  exact hfuel (gsbs_diverges_on_20001_ones fuel)

/-- C3 (amended): `get_suitable_block_size` terminates — returns a value or
raises an exception rather than looping forever — on every non-empty
file-size map with at most 10000 files; in particular under `main`'s
`MAX_NUM_FILES = 6000` guard.  (With more than 10000 tiny files the loop can
diverge, as the counterexample shows.) -/
theorem C3_terminates_upto_10000_files (l : List ℕ) (hne : l ≠ [])
    (hcount : l.length ≤ 10000) : gsbs_terminates l := by
  cases hpre : pre_loop_block_size l with
  | error e =>
    refine ⟨0, ?_⟩
    unfold get_suitable_block_size
    rw [hpre]
    simp only []
    intro hcontra
    rw [Except.error.injEq] at hcontra
    exact pre_loop_ne_outOfFuel l (by rw [hpre, hcontra])
  | ok bs0 =>
    have hM : 1 ≤ (py_sorted (· ≤ ·) l).getLast?.getD 0 := pre_loop_last_pos hpre
    have hbs0 : 1 ≤ bs0 := pre_loop_pos hpre
    have hnle : (py_sorted (· ≤ ·) l).length ≤ 10000 := by
      rw [(py_sorted_perm (· ≤ ·) l).length_eq]
      exact hcount
    have hTM : (py_sorted (· ≤ ·) l).sum
        ≤ (py_sorted (· ≤ ·) l).length * ((py_sorted (· ≤ ·) l).getLast?.getD 0) := by
      have hle := List.sum_le_card_nsmul (py_sorted (· ≤ ·) l)
        ((py_sorted (· ≤ ·) l).getLast?.getD 0)
        (sorted_le_getLast (py_sorted_sorted l))
      simpa [smul_eq_mul] using hle
    refine ⟨(py_sorted (· ≤ ·) l).getLast?.getD 0 + 3, ?_⟩
    unfold get_suitable_block_size
    rw [hpre]
    simp only []
    have hloop := block_loop_enters (py_sorted (· ≤ ·) l).sum
      (py_sorted (· ≤ ·) l).length ((py_sorted (· ≤ ·) l).getLast?.getD 0)
      hnle hTM hM bs0 hbs0
    cases hbl : block_loop (py_sorted (· ≤ ·) l).sum (py_sorted (· ≤ ·) l).length
        ((py_sorted (· ≤ ·) l).getLast?.getD 0)
        ((py_sorted (· ≤ ·) l).getLast?.getD 0 + 3) bs0 with
    | error e =>
      rw [hbl] at hloop
      simp only []
      intro hcontra
      rw [Except.error.injEq] at hcontra
      exact hloop (by rw [hcontra])
    | ok bs => simp

/-- Witness for `C3_terminates_upto_10000_files` at the size list
`[5, 10, 11]`. -/
theorem C3_terminates_upto_10000_files_witness : gsbs_terminates [5, 10, 11] :=
  C3_terminates_upto_10000_files [5, 10, 11] (by decide) (by decide)

/-! ### Claim C9: division safety of the heuristic -/

/-- C9: on a non-empty size list, every division inside
`get_suitable_block_size` has a positive divisor as long as some file has
positive size (the result is never a `ZeroDivisionError`), while on an
all-zero size list the evaluation of `total_size / x` with `x = 0` raises
`ZeroDivisionError` — a positive maximum file size is an undocumented
precondition of the heuristic. -/
theorem C9_division_safety (l : List ℕ) (fuel : ℕ) (hne : l ≠ []) :
    ((∃ s ∈ l, 0 < s) → get_suitable_block_size fuel l ≠ .error .zeroDiv) ∧
    ((∀ s ∈ l, s = 0) → get_suitable_block_size fuel l = .error .zeroDiv) := by
  constructor
  · rintro ⟨s, hsmem, hspos⟩
    have hM : 1 ≤ (py_sorted (· ≤ ·) l).getLast?.getD 0 := by
      have := py_sorted_le_getLast l s hsmem
      omega
    unfold get_suitable_block_size
    cases hpre : pre_loop_block_size l with
    | error e =>
      simp only []
      have hnz := pre_loop_ne_zeroDiv hM
      rw [hpre] at hnz
      intro hcontra
      rw [Except.error.injEq] at hcontra
      exact hnz (by rw [hcontra])
    | ok bs0 =>
      simp only []
      have hbs0 : 1 ≤ bs0 := pre_loop_pos hpre
      have hnz := block_loop_ne_zeroDiv (py_sorted (· ≤ ·) l).sum
        (py_sorted (· ≤ ·) l).length ((py_sorted (· ≤ ·) l).getLast?.getD 0)
        hM fuel bs0 hbs0
      cases hbl : block_loop (py_sorted (· ≤ ·) l).sum (py_sorted (· ≤ ·) l).length
          ((py_sorted (· ≤ ·) l).getLast?.getD 0) fuel bs0 with
      | error e =>
        simp only []
        rw [hbl] at hnz
        intro hcontra
        rw [Except.error.injEq] at hcontra
        exact hnz (by rw [hcontra])
      | ok bs => simp
  · intro hzero
    unfold get_suitable_block_size
    rw [pre_loop_all_zero hne hzero]

/-- Witness for `C9_division_safety` at the size list `[0, 3]` with fuel 5:
the map has a positive size, so no division by zero occurs. -/
theorem C9_division_safety_witness :
    ((∃ s ∈ ([0, 3] : List ℕ), 0 < s) →
      get_suitable_block_size 5 [0, 3] ≠ .error .zeroDiv) ∧
    ((∀ s ∈ ([0, 3] : List ℕ), s = 0) →
      get_suitable_block_size 5 [0, 3] = .error .zeroDiv) :=
  C9_division_safety [0, 3] 5 (by decide)

/-! ### Claim C6: the large-uniform-files starting estimate -/

/-- C6 (as stated, refuted): on four files of size `1572864` (1.5 MiB) the
3/4-quantile size `x = 1572864` equals the maximum and exceeds 1 MiB, so
the claim predicts the starting estimate
`ceil(x / ceil(x / 1MiB)) = ceil(1572864 / 2) = 786432`; the code instead
computes `approximate_size_in_MB = x // 1MiB = 1` (floor, not ceiling) and
returns `ceil(x / 1) = 1572864`. -/
theorem C6_counterexample_floor_vs_ceil :
    pre_loop_block_size (List.replicate 4 1572864) = .ok 1572864 ∧
    (1572864 + (1572864 + MB - 1) / MB - 1) / ((1572864 + MB - 1) / MB) = 786432 ∧
    (1572864 : ℕ) ≠ 786432 := by
  refine ⟨?_, by decide, by decide⟩
  have hsorted : py_sorted (· ≤ ·) (List.replicate 4 1572864) = List.replicate 4 1572864 :=
    py_sorted_replicate 1572864 4
  unfold pre_loop_block_size
  rw [hsorted]
  decide

/-- C6 (amended): whenever the size `x` at sorted index `len(sizes)/4`
equals the maximum file size, the block-count test
`total_size / x + len(sizes) < 20000` passes, and `x > 1 MiB`, the starting
estimate (before the doubling loop and the rounding to a multiple of 4) is
`ceil(x / (x // 1MiB))` — the divisor is the floor `x // 1MiB`, not the
ceiling the claim states, and the block-count test is an additional
condition the claim omits. -/
theorem C6_uniform_large_estimate (l : List ℕ) (x : ℕ)
    (hx : x = (py_sorted (· ≤ ·) l).getD ((py_sorted (· ≤ ·) l).length / 4) 0)
    (hlast : x = (py_sorted (· ≤ ·) l).getLast?.getD 0)
    (hbig : MB < x)
    (hcount : (py_sorted (· ≤ ·) l).sum / x + (py_sorted (· ≤ ·) l).length < 20000) :
    pre_loop_block_size l = .ok ((x + x / MB - 1) / (x / MB)) := by
  have hne : py_sorted (· ≤ ·) l ≠ [] := by
    intro hnil
    rw [hnil] at hx
    simp [List.getD] at hx
    rw [hx] at hbig
    exact absurd hbig (by have := MB_pos; omega)
  obtain ⟨a, t, hs⟩ := List.exists_cons_of_ne_nil hne
  rw [hs] at hx hlast hcount
  unfold pre_loop_block_size
  rw [hs]
  simp only []
  have hdiv : ¬ x / MB = 0 := by
    have h1 : 1 ≤ x / MB := (Nat.one_le_div_iff MB_pos).mpr (le_of_lt hbig)
    omega
  rw [if_pos (by rw [← hx, ← hlast]), if_neg (by rw [← hx]; have := MB_pos; omega),
    if_pos (by rw [← hx]; exact hcount), if_pos (by rw [← hx]; exact hbig), ← hx]
  rw [if_neg hdiv]

/-- Witness for `C6_uniform_large_estimate` at four files of size 3 MiB:
the estimate is `ceil(3145728 / 3) = 1048576`. -/
theorem C6_uniform_large_estimate_witness :
    pre_loop_block_size (List.replicate 4 3145728)
      = .ok ((3145728 + 3145728 / MB - 1) / (3145728 / MB)) :=
  C6_uniform_large_estimate (List.replicate 4 3145728) 3145728
    (by rw [py_sorted_replicate]; decide)
    (by rw [py_sorted_replicate]; decide)
    (by decide)
    (by rw [py_sorted_replicate]; decide)

end CreatePar2
